import Mathlib

/-!
Shallow embedding of `src/extras/helpers.py` (`characterize_phase_space`) and
proofs about it.

Conventions of the embedding:
* Machine floats are modelled by an arbitrary `LinearOrderedField K`
  (instantiated at `ℚ` for executable witnesses and at `ℝ` when the exact
  rotation constant `exp(i·2π/3)` — i.e. `√3` — is needed).
* The particle tracker (`line.track` + `twiss.get_normalized_coordinates`) is
  an external collaborator of the core (spec §1); it is modelled as an
  abstract function `track : K → List (Sample K)` giving, for an initial
  horizontal offset `x0` (with `px = 0`), the per-turn recorded physical and
  normalized coordinates and the liveness `state` of the single particle.
* `numpy` comparisons of absolute values `|z| < c` (with `c ≥ 0`) are embedded
  as comparisons of squares `|z|² < c²`, which is order-equivalent on
  nonnegative quantities and keeps everything inside the field `K`
  (no square roots).  `np.argmax` / `np.argmin` are embedded by their
  documented semantics: first index attaining the maximum / minimum.
* The complex number `z = x + i·px` of the source is the pair `(x, px) : K × K`;
  multiplication by `exp(±i·2π/3) = (-1/2, ±√3/2)` is `rot120` / `rot240`,
  where the parameter `s : K` stands for `√3` (theorems that depend on the
  rotation genuinely being by 120° carry the hypothesis `s ^ 2 = 3`).
-/

namespace PhaseSpace

variable {K : Type} [LinearOrderedField K]

/-- One recorded turn of the tracked particle: physical coordinates `(x, px)`,
normalized coordinates `(xn, pxn)` (provided by the external twiss transform),
and the integer liveness flag `state` (`state > 0` means alive). -/
structure Sample (K : Type) where
  x : K
  px : K
  xn : K
  pxn : K
  state : ℤ
deriving DecidableEq

/-- Hardcoded septum threshold of the source: `x_septum = 3.5e-2`. -/
def x_septum : K := 7 / 200

/-- Squared modulus of a phase-space point, embedding `np.abs(z)**2`
(`z = x + i·px`). -/
def rsq (z : K × K) : K := z.1 ^ 2 + z.2 ^ 2

/-- Squared distance between two phase-space points, embedding
`np.abs(z - w)**2`. -/
def distSq (z w : K × K) : K := (z.1 - w.1) ^ 2 + (z.2 - w.2) ^ 2

/-- Complex multiplication by `exp(+i·2π/3) = -1/2 + i·s/2` where `s` stands
for `√3`; embeds `z * np.exp(1j * 2 / 3 * np.pi)` from the source. -/
def rot120 (s : K) (z : K × K) : K × K :=
  (-z.1 / 2 - z.2 * s / 2, z.1 * s / 2 - z.2 / 2)

/-- Complex multiplication by `exp(-i·2π/3) = -1/2 - i·s/2`; embeds
`z * np.exp(-1j * 2 / 3 * np.pi)`. -/
def rot240 (s : K) (z : K × K) : K × K :=
  (-z.1 / 2 + z.2 * s / 2, -z.1 * s / 2 - z.2 / 2)

/-- First index of the maximum of a list: the documented semantics of
`np.argmax` (returns `0` on the empty list, as the embedding's convention). -/
def argmax (l : List K) : ℕ := l.findIdx (fun (v : K) => decide (l.maximum = (v : WithBot K)))

/-- First index of the minimum of a list: the documented semantics of
`np.argmin`. -/
def argmin (l : List K) : ℕ := l.findIdx (fun (v : K) => decide (l.minimum = (v : WithTop K)))

/- ----- generic facts about `argmax` ----- -/

theorem argmax_lt_length (l : List K) (h : l ≠ []) : argmax l < l.length := by
  obtain ⟨m, hm⟩ : ∃ m : K, l.maximum = (m : WithBot K) := by
    rcases hbot : l.maximum with _ | m
    · exact absurd hbot (List.maximum_ne_bot_of_ne_nil h)
    · exact ⟨m, rfl⟩
  unfold argmax
  refine List.findIdx_lt_length_of_exists ⟨m, List.maximum_mem hm, ?_⟩
  simp [hm]

theorem maximum_eq_getD_argmax (l : List K) (h : l ≠ []) :
    l.maximum = ((l.getD (argmax l) 0 : K) : WithBot K) := by
  have hlt : argmax l < l.length := argmax_lt_length l h
  have hlt2 : l.findIdx (fun (v : K) => decide (l.maximum = (v : WithBot K))) < l.length := hlt
  have hp := @List.findIdx_getElem K (fun v => decide (l.maximum = (v : WithBot K))) l hlt2
  rw [List.getD_eq_getElem l 0 hlt]
  exact of_decide_eq_true hp

theorem getD_argmax_mem (l : List K) (h : l ≠ []) : l.getD (argmax l) 0 ∈ l :=
  List.maximum_mem (maximum_eq_getD_argmax l h)

theorem le_getD_argmax (l : List K) (h : l ≠ []) :
    ∀ a ∈ l, a ≤ l.getD (argmax l) 0 := fun a ha =>
  List.le_maximum_of_mem ha (maximum_eq_getD_argmax l h)

theorem argmax_const (l : List K) (c : K) (h : ∀ a ∈ l, a = c) : argmax l = 0 := by
  cases l with
  | nil => simp [argmax]
  | cons a t =>
      have ha : a = c := h a (List.mem_cons_self a t)
      have hmax : (a :: t).maximum = (a : WithBot K) := by
        rw [List.maximum_eq_coe_iff]
        exact ⟨List.mem_cons_self a t, fun b hb => by rw [h b hb, ha]⟩
      simp [argmax, List.findIdx_cons, hmax]

/- ----- Separatrix locator: the bisection loop (source lines 88–98) ----- -/

/-- Classification predicate of the bisection loop, embedding
`(rec_test.x > x_septum).any()`: the particle launched at `x0` is unstable iff
some recorded `x` over its trajectory exceeds the septum threshold. -/
def unstableTest (track : K → List (Sample K)) (x0 : K) : Bool :=
  ((track x0).map Sample.x).any (fun v => decide (x_septum < v))

/-- One iteration body of the bisection loop: test the midpoint, narrow the
bracket (`unstable → new upper bound`, `stable → new lower bound`). -/
def bisectStep (u : K → Bool) (p : K × K) : K × K :=
  let m := (p.1 + p.2) / 2
  if u m then (p.1, m) else (m, p.2)

/-- The bisection loop after at most `n` more iterations: iterate `bisectStep`
while the loop guard `x_unstable - x_stable > 1e-6` holds.  Once the guard
fails the state is returned unchanged, so `bisectIter u n p` is the loop's
final state as soon as `n` is large enough for the guard to have failed. -/
def bisectIter (u : K → Bool) : ℕ → K × K → K × K
  | 0, p => p
  | n + 1, p => if p.2 - p.1 ≤ 1 / 1000000 then p else bisectIter u n (bisectStep u p)

/-- Result of the bisection loop of the source, started from the hardcoded
bracket `(x_stable, x_unstable) = (0, 0.03)`.  Fifteen iterations always
suffice (`bisect_is_loop_limit` below), so this is the loop's limit value. -/
def bisect (u : K → Bool) : K × K := bisectIter u 15 ((0 : K), 3 / 100)

/-- The claim-as-stated of C4: the loop guard still holds after every number
of iterations, i.e. the `while` loop never exits. -/
def BisectDiverges (u : K → Bool) : Prop :=
  ∀ n : ℕ, 1 / 1000000 < (bisectIter u n ((0 : K), 3 / 100)).2 - (bisectIter u n ((0 : K), 3 / 100)).1

theorem bisectStep_width (u : K → Bool) (p : K × K) :
    (bisectStep u p).2 - (bisectStep u p).1 = (p.2 - p.1) / 2 := by
  cases hU : u ((p.1 + p.2) / 2) <;> simp [bisectStep, hU] <;> ring

/-- Each loop iteration halves the bracket, whatever the classification says;
hence after `n` iterations the width is at most
`max ((initial width) / 2 ^ n) tolerance`. -/
theorem bisectIter_width (u : K → Bool) :
    ∀ (n : ℕ) (p : K × K),
      (bisectIter u n p).2 - (bisectIter u n p).1 ≤ max ((p.2 - p.1) / 2 ^ n) (1 / 1000000) := by
  intro n
  induction n with
  | zero =>
      intro p
      have : (p.2 - p.1) / 2 ^ (0 : ℕ) = p.2 - p.1 := by norm_num
      rw [this]
      exact le_max_left (p.2 - p.1) (1 / 1000000)
  | succ n ih =>
      intro p
      unfold bisectIter
      by_cases h : p.2 - p.1 ≤ 1 / 1000000
      · rw [if_pos h]
        exact le_trans h (le_max_right _ _)
      · rw [if_neg h]
        have hw := ih (bisectStep u p)
        rw [bisectStep_width u p, div_div, ← pow_succ'] at hw
        exact hw

theorem bisectIter_frozen (u : K → Bool) (n : ℕ) (p : K × K)
    (h : p.2 - p.1 ≤ 1 / 1000000) : bisectIter u n p = p := by
  cases n with
  | zero => rfl
  | succ n => unfold bisectIter; rw [if_pos h]

theorem bisectIter_add (u : K → Bool) :
    ∀ (m n : ℕ) (p : K × K), bisectIter u (m + n) p = bisectIter u n (bisectIter u m p) := by
  intro m
  induction m with
  | zero => intro n p; rw [Nat.zero_add]; rfl
  | succ m ih =>
      intro n p
      by_cases h : p.2 - p.1 ≤ 1 / 1000000
      · rw [bisectIter_frozen u (m + 1) p h, bisectIter_frozen u (m + 1 + n) p h,
          bisectIter_frozen u n p h]
      · have h1 : bisectIter u (m + 1 + n) p = bisectIter u (m + n) (bisectStep u p) := by
          have hmn : m + 1 + n = (m + n) + 1 := by omega
          rw [hmn]
          show (if p.2 - p.1 ≤ 1 / 1000000 then p else bisectIter u (m + n) (bisectStep u p)) = _
          rw [if_neg h]
        have h2 : bisectIter u (m + 1) p = bisectIter u m (bisectStep u p) := by
          show (if p.2 - p.1 ≤ 1 / 1000000 then p else bisectIter u m (bisectStep u p)) = _
          rw [if_neg h]
        rw [h1, h2, ih]

/-- The bracket width of `bisect` meets the tolerance: concretely,
`0.03 / 2 ^ 15 ≈ 9.16e-7 ≤ 1e-6`. -/
theorem bisect_width (u : K → Bool) : (bisect u).2 - (bisect u).1 ≤ 1 / 1000000 := by
  have h := bisectIter_width u 15 ((0 : K), 3 / 100)
  have hle : (((0 : K), (3 : K) / 100).2 - ((0 : K), (3 : K) / 100).1) / 2 ^ (15 : ℕ) ≤ 1 / 1000000 := by
    norm_num
  exact le_trans h (max_le hle le_rfl)

/-- Justification that `bisect` is the loop's limit: iterating any further
changes nothing, so the unbounded `while` loop of the source has exactly this
value as its final state. -/
theorem bisect_is_loop_limit (u : K → Bool) (n : ℕ) (hn : 15 ≤ n) :
    bisectIter u n ((0 : K), 3 / 100) = bisect u := by
  obtain ⟨k, rfl⟩ : ∃ k, n = 15 + k := ⟨n - 15, by omega⟩
  rw [bisectIter_add u 15 k ((0 : K), 3 / 100)]
  exact bisectIter_frozen u k _ (bisect_width u)

/-- Peeling one iteration off the back of the loop. -/
theorem bisectIter_succ_back (u : K → Bool) (n : ℕ) (p : K × K) :
    bisectIter u (n + 1) p =
      (if (bisectIter u n p).2 - (bisectIter u n p).1 ≤ 1 / 1000000 then bisectIter u n p
       else bisectStep u (bisectIter u n p)) := by
  rw [bisectIter_add u n 1 p]
  rfl

/-- The invariant `x_stable ≤ x_unstable` is preserved by the loop. -/
theorem bisectIter_le (u : K → Bool) :
    ∀ (n : ℕ) (p : K × K), p.1 ≤ p.2 → (bisectIter u n p).1 ≤ (bisectIter u n p).2 := by
  intro n
  induction n with
  | zero => intro p hp; exact hp
  | succ n ih =>
      intro p hp
      unfold bisectIter
      by_cases h : p.2 - p.1 ≤ 1 / 1000000
      · rw [if_pos h]; exact hp
      · rw [if_neg h]
        refine ih (bisectStep u p) ?_
        cases hu : u ((p.1 + p.2) / 2) <;> simp [bisectStep, hu] <;> linarith

/- ----- Slope at the septum (source lines 109–115) ----- -/

/-- Normalization of a (possibly negative) `numpy` array index for an array of
length `n`: indices in `[0, n)` are used as is, indices in `[-n, 0)` wrap to
`n + i`, anything else raises `IndexError` (modelled as `none`). -/
def npIndex (n : ℕ) (i : ℤ) : Option ℕ :=
  if 0 ≤ i then (if i < (n : ℤ) then some i.toNat else none)
  else (if 0 ≤ i + (n : ℤ) then some (i + (n : ℤ)).toNat else none)

/-- Index of the separatrix sample closest to the septum, embedding
`np.argmin(np.abs(x_separ - x_septum))` (first index of the minimum). -/
def iSeptumIdx (traj : List (K × K)) : ℕ :=
  argmin (traj.map (fun z => |z.1 - x_septum|))

/-- Septum slope fit of the source: take the samples 3 indices before and
after the closest-to-septum sample and fit a line through these two points
(`np.polyfit` with two points interpolates them exactly, so the coefficients
are the slope `Δpx/Δx` and the intercept).  Returns `none` when an index is
out of range, i.e. when the Python raises `IndexError`. -/
def slopeAtSeptum (traj : List (K × K)) : Option (K × K) :=
  let i : ℤ := (iSeptumIdx traj : ℤ)
  match npIndex traj.length (i - 3), npIndex traj.length (i + 3) with
  | some a, some b =>
      let za := traj.getD a (0, 0)
      let zb := traj.getD b (0, 0)
      let slope := (zb.2 - za.2) / (zb.1 - za.1)
      some (slope, za.2 - slope * za.1)
  | some _, none => none
  | none, _ => none

/- ----- Stable boundary curve (source lines 118–133) ----- -/

/-- Quadrant level of `np.angle(x + i·px) ∈ (-π, π]`: angles in `(-π, 0)` come
first (class 0), then `0` (class 1, non-negative real axis including the
origin), then `(0, π)` (class 2), then `π` (class 3, negative real axis). -/
def angleClass (z : K × K) : ℕ :=
  if z.2 < 0 then 0
  else if z.2 = 0 ∧ 0 ≤ z.1 then 1
  else if 0 < z.2 then 2
  else 3

/-- Cross product `x_a·px_b - px_a·x_b`; within one open half-plane,
`angle a < angle b ↔ 0 < cross a b`. -/
def cross (a b : K × K) : K := a.1 * b.2 - a.2 * b.1

/-- Exact decidable comparison of `np.angle` values: smaller quadrant level
first, and inside one open half-plane the sign of the cross product decides.
This is order-equivalent to comparing the `atan2` values themselves. -/
def angleLtb (a b : K × K) : Bool :=
  decide (angleClass a < angleClass b) ||
    (decide (angleClass a = angleClass b) && decide (0 < cross a b))

/-- Total comparison used for the angular sort (`¬ (angle b < angle a)`). -/
def angleLeb (a b : K × K) : Bool := !(angleLtb b a)

/-- Angular sort of the triangle trajectory, embedding
`i_sorted = np.argsort(theta_triangle)` applied to all four coordinate arrays:
the samples (kept whole, which is what indexing all arrays by `i_sorted`
does) sorted by normalized-plane angle.  Note the source applies NO liveness
filtering here: every sample of the trajectory participates. -/
def sortBoundary (l : List (Sample K)) : List (Sample K) :=
  l.mergeSort (fun a b => angleLeb (a.xn, a.pxn) (b.xn, b.pxn))

/- ----- Fixed-point detection (source lines 136–149) ----- -/

/-- Index of the first fixed point: sample of maximum normalized radius,
embedding `i_fp1 = np.argmax(r_triangle_norm)` (radii compared via their
squares). -/
def fp1Idx (zs : List (K × K)) : ℕ := argmax (zs.map rsq)

/-- The first fixed point `z_fp1` in normalized coordinates. -/
def z_fp1 (zs : List (K × K)) : K × K := zs.getD (fp1Idx zs) (0, 0)

/-- Masked radius array for the second fixed point, embedding
`r_triangle_norm * mask_fp2` with
`mask_fp2 = |z - z_fp1·e^{i2π/3}| < 0.2·r_fp1` (squared on both sides:
`0.2² = 1/25`).  A `True` entry keeps the radius, a `False` entry zeroes it;
comparing squared radii picks the same argmax index as the source. -/
def maskVal2 (s : K) (zs : List (K × K)) (z : K × K) : K :=
  if distSq z (rot120 s (z_fp1 zs)) < 1 / 25 * rsq (z_fp1 zs) then rsq z else 0

/-- Index of the second fixed point: `i_fp2 = np.argmax(r_triangle_norm * mask_fp2)`. -/
def fp2Idx (s : K) (zs : List (K × K)) : ℕ := argmax (zs.map (maskVal2 s zs))

/-- Masked radius array for the third fixed point (rotation by `-2π/3`). -/
def maskVal3 (s : K) (zs : List (K × K)) (z : K × K) : K :=
  if distSq z (rot240 s (z_fp1 zs)) < 1 / 25 * rsq (z_fp1 zs) then rsq z else 0

/-- Index of the third fixed point: `i_fp3 = np.argmax(r_triangle_norm * mask_fp3)`. -/
def fp3Idx (s : K) (zs : List (K × K)) : ℕ := argmax (zs.map (maskVal3 s zs))

/-- The three fixed points in normalized coordinates:
`z_triangle_norm[[i_fp1, i_fp2, i_fp3]]`. -/
def normFixedPoints (s : K) (zs : List (K × K)) : List (K × K) :=
  [zs.getD (fp1Idx zs) (0, 0), zs.getD (fp2Idx s zs) (0, 0), zs.getD (fp3Idx s zs) (0, 0)]

/-- The three fixed points in physical coordinates: the SAME indices (found on
the normalized trajectory `zn`) applied to the unsorted physical trajectory
`zp`, embedding `z_triangle[[i_fp1, i_fp2, i_fp3]]`. -/
def physFixedPoints (s : K) (zp zn : List (K × K)) : List (K × K) :=
  [zp.getD (fp1Idx zn) (0, 0), zp.getD (fp2Idx s zn) (0, 0), zp.getD (fp3Idx s zn) (0, 0)]

/- ----- Stable area (source line 152) ----- -/

/-- Determinant of a 3×3 matrix given row by row (cofactor expansion along the
first row), embedding `np.linalg.det`. -/
def det3 (a b c d e f g h i : K) : K :=
  a * (e * i - f * h) - b * (d * i - f * g) + c * (d * h - e * g)

/-- Stable-area value of the source:
`np.linalg.det([x_norm_fp, px_norm_fp, [1, 1, 1]])` for the three normalized
fixed points. -/
def stableArea (q1 q2 q3 : K × K) : K :=
  det3 q1.1 q2.1 q3.1 q1.2 q2.2 q3.2 1 1 1

/- ----- Whole-call pipeline and the plotting branch (source lines 77–209) ----- -/

/-- The returned dictionary of `characterize_phase_space`. -/
structure CharResult (K : Type) where
  stable_area : K
  dpx_dx_at_septum : K
  x_fixed_points : List K
  px_fixed_points : List K
  x_norm_fixed_points : List K
  px_norm_fixed_points : List K
deriving DecidableEq

/-- The data read by the plotting branch (a matplotlib figure is a pure
side-effect; this records every series the source draws). -/
structure Figure (K : Type) where
  cloud : List (List (K × K))
  cloudNorm : List (List (K × K))
  septumLine : K
  sepSeries : List (K × K)
  sepSeriesNorm : List (K × K)
  slopeSegment : (K × K) × (K × K)
  boundary : List (K × K)
  boundaryNorm : List (K × K)
  fixedPointMarkers : List (K × K)
  fixedPointMarkersNorm : List (K × K)

/-- Evaluation of the fitted line, embedding `np.polyval(poly_sep, x)`. -/
def polyval (coef : K × K) (x : K) : K := coef.1 * x + coef.2

/-- Sampling offsets of the diagnostic cloud:
`np.linspace(0, 2.5e-2, 25)`. -/
def xGen : List K := (List.range 25).map (fun i => 25 / 1000 * (i : K) / 24)

/-- The figure assembled by the plotting branch: the sampled cloud, the septum
line, the liveness-filtered (`state > 0`) separatrix series, the fitted slope
segment over `[x_septum - 1e-2, x_septum + 1e-2]`, the angularly sorted
boundary curve, and the fixed-point markers. -/
def buildFigure (cloudRecs : List (List (Sample K))) (sep : List (Sample K))
    (coef : K × K) (boundarySorted : List (Sample K)) (fpP fpN : List (K × K)) : Figure K :=
  { cloud := cloudRecs.map (fun tr => tr.map (fun a => (a.x, a.px)))
    cloudNorm := cloudRecs.map (fun tr => tr.map (fun a => (a.xn, a.pxn)))
    septumLine := x_septum
    sepSeries := (sep.filter (fun a => decide (0 < a.state))).map (fun a => (a.x, a.px))
    sepSeriesNorm := (sep.filter (fun a => decide (0 < a.state))).map (fun a => (a.xn, a.pxn))
    slopeSegment :=
      ((x_septum - 1 / 100, polyval coef (x_septum - 1 / 100)),
       (x_septum + 1 / 100, polyval coef (x_septum + 1 / 100)))
    boundary := boundarySorted.map (fun a => (a.x, a.px))
    boundaryNorm := boundarySorted.map (fun a => (a.xn, a.pxn))
    fixedPointMarkers := fpP
    fixedPointMarkersNorm := fpN }

/-- The full `characterize_phase_space(line, plot)` call over an abstract
tracker.  Stages in source order: diagnostic sampling, bisection locator,
separatrix tracking and slope fit, triangle tracking, angular sort,
fixed-point detection, area, optional plotting, result record.  `none` models
the call raising (`IndexError` in the slope window). -/
def characterize_phase_space (s : K) (track : K → List (Sample K)) (plot : Bool) :
    Option (CharResult K × Option (Figure K)) :=
  let cloudRecs := xGen.map (fun x0 => track x0)
  let br := bisect (unstableTest track)
  let sep := track br.2
  match slopeAtSeptum (sep.map (fun a => (a.x, a.px))) with
  | none => none
  | some coef =>
      let tri := track br.1
      let zp := tri.map (fun a => (a.x, a.px))
      let zn := tri.map (fun a => (a.xn, a.pxn))
      let boundarySorted := sortBoundary tri
      let fpP := physFixedPoints s zp zn
      let fpN := normFixedPoints s zn
      let area := stableArea (fpN.getD 0 (0, 0)) (fpN.getD 1 (0, 0)) (fpN.getD 2 (0, 0))
      let res : CharResult K :=
        { stable_area := area
          dpx_dx_at_septum := coef.1
          x_fixed_points := fpP.map Prod.fst
          px_fixed_points := fpP.map Prod.snd
          x_norm_fixed_points := fpN.map Prod.fst
          px_norm_fixed_points := fpN.map Prod.snd }
      some (res, if plot then some (buildFigure cloudRecs sep coef boundarySorted fpP fpN) else none)

/- ----- rotation algebra (valid whenever `s` really is `√3`) ----- -/

theorem rsq_rot120 (s : K) (z : K × K) (hs : s ^ 2 = 3) : rsq (rot120 s z) = rsq z := by
  simp only [rsq, rot120]
  linear_combination ((z.1 ^ 2 + z.2 ^ 2) / 4) * hs

theorem rsq_rot240 (s : K) (z : K × K) (hs : s ^ 2 = 3) : rsq (rot240 s z) = rsq z := by
  simp only [rsq, rot240]
  linear_combination ((z.1 ^ 2 + z.2 ^ 2) / 4) * hs

theorem rot120_rot120 (s : K) (z : K × K) (hs : s ^ 2 = 3) :
    rot120 s (rot120 s z) = rot240 s z := by
  simp only [rot120, rot240, Prod.mk.injEq]
  constructor
  · linear_combination (-z.1 / 4) * hs
  · linear_combination (-z.2 / 4) * hs

theorem rot120_rot240 (s : K) (z : K × K) (hs : s ^ 2 = 3) :
    rot120 s (rot240 s z) = z := by
  rw [Prod.ext_iff]
  simp only [rot120, rot240]
  constructor
  · linear_combination (z.1 / 4) * hs
  · linear_combination (z.2 / 4) * hs

theorem rot240_rot120 (s : K) (z : K × K) (hs : s ^ 2 = 3) :
    rot240 s (rot120 s z) = z := by
  rw [Prod.ext_iff]
  simp only [rot120, rot240]
  constructor
  · linear_combination (z.1 / 4) * hs
  · linear_combination (z.2 / 4) * hs

theorem rot240_rot240 (s : K) (z : K × K) (hs : s ^ 2 = 3) :
    rot240 s (rot240 s z) = rot120 s z := by
  simp only [rot120, rot240, Prod.mk.injEq]
  constructor
  · linear_combination (-z.1 / 4) * hs
  · linear_combination (-z.2 / 4) * hs

theorem distSq_self (z : K × K) : distSq z z = 0 := by simp [distSq]

/-- Any two DISTINCT points of the 120°-symmetric cluster set
`{p, rot120 p, rot240 p}` are at squared distance `3·rsq p`. -/
theorem cluster_distSq (s : K) (p u v : K × K) (hs : s ^ 2 = 3)
    (hu : u = p ∨ u = rot120 s p ∨ u = rot240 s p)
    (hv : v = p ∨ v = rot120 s p ∨ v = rot240 s p)
    (huv : u ≠ v) : distSq u v = 3 * rsq p := by
  have d12 : distSq p (rot120 s p) = 3 * rsq p := by
    simp only [distSq, rot120, rsq]
    linear_combination ((p.1 ^ 2 + p.2 ^ 2) / 4) * hs
  have d13 : distSq p (rot240 s p) = 3 * rsq p := by
    simp only [distSq, rot240, rsq]
    linear_combination ((p.1 ^ 2 + p.2 ^ 2) / 4) * hs
  have d23 : distSq (rot120 s p) (rot240 s p) = 3 * rsq p := by
    simp only [distSq, rot120, rot240, rsq]
    linear_combination (p.1 ^ 2 + p.2 ^ 2) * hs
  have dsymm : ∀ a b : K × K, distSq a b = distSq b a := by
    intro a b; simp only [distSq]; ring
  rcases hu with rfl | rfl | rfl <;> rcases hv with rfl | rfl | rfl
  · exact absurd rfl huv
  · exact d12
  · exact d13
  · rw [dsymm]; exact d12
  · exact absurd rfl huv
  · exact d23
  · rw [dsymm]; exact d13
  · rw [dsymm]; exact d23
  · exact absurd rfl huv

/-- Selecting from a masked radius array: if every entry is `rr` exactly when
the sample equals the target `t` (and `0` otherwise), and `t` occurs, then the
sample at the argmax of the masked array IS `t`. -/
theorem argmax_masked_select (zs : List (K × K)) (f : K × K → K) (t : K × K) (rr : K)
    (hrr : 0 < rr) (hf : ∀ z ∈ zs, f z = if z = t then rr else 0) (ht : t ∈ zs) :
    zs.getD (argmax (zs.map f)) (0, 0) = t := by
  have hne : zs ≠ [] := List.ne_nil_of_mem ht
  have hwne : zs.map f ≠ [] := by simpa using hne
  have hlen : argmax (zs.map f) < zs.length := by
    have := argmax_lt_length (zs.map f) hwne
    simpa using this
  set i := argmax (zs.map f) with hi
  have hmem : zs.getD i (0, 0) ∈ zs := by
    rw [List.getD_eq_getElem zs (0, 0) hlen]
    exact List.getElem_mem hlen
  have hgetmap : (zs.map f).getD i 0 = f (zs.getD i (0, 0)) := by
    rw [List.getD_eq_getElem (zs.map f) 0 (by simpa using hlen),
      List.getD_eq_getElem zs (0, 0) hlen]
    simp
  have htop : rr ≤ (zs.map f).getD i 0 := by
    refine le_getD_argmax (zs.map f) hwne rr ?_
    have : f t = rr := by rw [hf t ht]; simp
    exact this ▸ List.mem_map_of_mem f ht
  have hval : f (zs.getD i (0, 0)) = if zs.getD i (0, 0) = t then rr else 0 :=
    hf _ hmem
  rw [hgetmap, hval] at htop
  by_contra hne2
  rw [if_neg hne2] at htop
  exact absurd (lt_of_lt_of_le hrr htop) (lt_irrefl 0)

/- ----- claim C9 and C1: bracket invariants of the locator ----- -/

/-- The bracket invariant `x_stable < x* ≤ x_unstable` is preserved by the
loop when the classification is a hard threshold at `x*`. -/
theorem bisectIter_bracket (u : K → Bool) (xstar : K)
    (hu : ∀ x : K, u x = true ↔ xstar ≤ x) :
    ∀ (n : ℕ) (p : K × K), p.1 < xstar → xstar ≤ p.2 →
      (bisectIter u n p).1 < xstar ∧ xstar ≤ (bisectIter u n p).2 := by
  intro n
  induction n with
  | zero => intro p h1 h2; exact ⟨h1, h2⟩
  | succ n ih =>
      intro p h1 h2
      unfold bisectIter
      by_cases h : p.2 - p.1 ≤ 1 / 1000000
      · rw [if_pos h]; exact ⟨h1, h2⟩
      · rw [if_neg h]
        have hstep : (bisectStep u p).1 < xstar ∧ xstar ≤ (bisectStep u p).2 := by
          cases hm : u ((p.1 + p.2) / 2) with
          | true =>
              have hle := (hu ((p.1 + p.2) / 2)).mp hm
              simp only [bisectStep, hm, if_true]
              exact ⟨h1, hle⟩
          | false =>
              have hnot : ¬ xstar ≤ (p.1 + p.2) / 2 := by
                intro hcon
                have := (hu ((p.1 + p.2) / 2)).mpr hcon
                rw [hm] at this
                exact Bool.false_ne_true this
              simp only [bisectStep, hm, Bool.false_eq_true, if_false]
              exact ⟨not_le.mp hnot, h2⟩
        exact ih (bisectStep u p) hstep.1 hstep.2

/-- C9: For every tracker and every iteration of the bisection loop of
`characterize_phase_space`, `x_stable` is non-decreasing and `x_unstable` is
non-increasing across iterations; the bracket `[x_stable, x_unstable]` never
widens. -/
theorem bracket_monotone_narrowing (track : K → List (Sample K)) (n : ℕ) :
    (bisectIter (unstableTest track) n ((0 : K), 3 / 100)).1 ≤
        (bisectIter (unstableTest track) (n + 1) ((0 : K), 3 / 100)).1 ∧
      (bisectIter (unstableTest track) (n + 1) ((0 : K), 3 / 100)).2 ≤
        (bisectIter (unstableTest track) n ((0 : K), 3 / 100)).2 ∧
      (bisectIter (unstableTest track) (n + 1) ((0 : K), 3 / 100)).2 -
          (bisectIter (unstableTest track) (n + 1) ((0 : K), 3 / 100)).1 ≤
        (bisectIter (unstableTest track) n ((0 : K), 3 / 100)).2 -
          (bisectIter (unstableTest track) n ((0 : K), 3 / 100)).1 := by
  set u := unstableTest track
  have hq : (bisectIter u n ((0 : K), 3 / 100)).1 ≤ (bisectIter u n ((0 : K), 3 / 100)).2 :=
    bisectIter_le u n ((0 : K), 3 / 100) (by norm_num)
  rw [bisectIter_succ_back u n ((0 : K), 3 / 100)]
  set q := bisectIter u n ((0 : K), 3 / 100)
  by_cases h : q.2 - q.1 ≤ 1 / 1000000
  · rw [if_pos h]
    exact ⟨le_rfl, le_rfl, le_rfl⟩
  · rw [if_neg h]
    cases hm : u ((q.1 + q.2) / 2) with
    | true =>
        simp only [bisectStep, hm, if_true]
        refine ⟨le_rfl, by linarith, by linarith⟩
    | false =>
        simp only [bisectStep, hm, Bool.false_eq_true, if_false]
        refine ⟨by linarith, le_rfl, by linarith⟩

/-- C1: For every deterministic tracker whose classification predicate (some
recorded `x` over the trajectory exceeds the septum threshold `3.5e-2`) is a
hard threshold with a single stability boundary `x*` inside the initial
bracket `[0, 0.03]`, the bisection loop of `characterize_phase_space`
terminates with `x_stable < x* ≤ x_unstable` and
`x_unstable - x_stable ≤ 1e-6` — hence `x_unstable` is unstable-classified
within tolerance of the boundary and `x_stable` stable-classified. -/
theorem bisection_converges_to_boundary (track : K → List (Sample K)) (xstar : K)
    (hu : ∀ x0 : K, unstableTest track x0 = true ↔ xstar ≤ x0)
    (h0 : 0 < xstar) (h3 : xstar ≤ 3 / 100) :
    (bisect (unstableTest track)).1 < xstar ∧ xstar ≤ (bisect (unstableTest track)).2 ∧
      (bisect (unstableTest track)).2 - (bisect (unstableTest track)).1 ≤ 1 / 1000000 := by
  have hb := bisectIter_bracket (unstableTest track) xstar hu 15 ((0 : K), 3 / 100) h0 h3
  exact ⟨hb.1, hb.2, bisect_width (unstableTest track)⟩

/-- Synthetic tracker for the C1 witness: the recorded trajectory jumps past
the septum exactly when the initial offset is at least `0.01`. -/
def track0 : ℚ → List (Sample ℚ) := fun x0 =>
  [⟨if 1 / 100 ≤ x0 then 4 / 100 else 0, 0, 0, 0, 1⟩]

theorem bisection_converges_to_boundary_witness :
    (bisect (unstableTest track0)).1 < 1 / 100 ∧ 1 / 100 ≤ (bisect (unstableTest track0)).2 ∧
      (bisect (unstableTest track0)).2 - (bisect (unstableTest track0)).1 ≤ 1 / 1000000 := by
  refine bisection_converges_to_boundary track0 (1 / 100) ?_ (by norm_num) (by norm_num)
  intro x0
  simp only [unstableTest, track0, x_septum, List.map_cons, List.map_nil, List.any_cons,
    List.any_nil, Bool.or_false, decide_eq_true_eq]
  by_cases hx : (1 : ℚ) / 100 ≤ x0
  · rw [if_pos hx]
    exact ⟨fun _ => hx, fun _ => by norm_num⟩
  · rw [if_neg hx]
    exact ⟨fun hcon => absurd hcon (by norm_num), fun hcon => absurd hcon hx⟩

/- ----- claim C4: the loop cannot run forever ----- -/

/-- C4 counterexample: the claim asserts a tracker behavior (instability never
detected) exists under which the bisection loop does not terminate.  This is
false: the guard `x_unstable - x_stable > 1e-6` fails within 15 iterations for
EVERY tracker, because each iteration halves the bracket no matter how the
midpoint is classified (when the midpoint is stable, `x_stable` walks up
towards the fixed `x_unstable = 0.03`). -/
theorem bisection_never_diverges :
    ¬ ∃ track : ℚ → List (Sample ℚ),
        (∀ x0 : ℚ, unstableTest track x0 = false) ∧ BisectDiverges (unstableTest track) := by
  rintro ⟨track, -, hd⟩
  exact absurd (bisect_width (unstableTest track)) (not_le.mpr (hd 15))

/-- C4 amended: for every tracker behavior — in particular one that never
reports instability — the bisection loop of `characterize_phase_space`
terminates, and it does so within 15 iterations (the bracket width halves
every iteration, and `0.03 / 2^15 ≤ 1e-6`). -/
theorem bisection_terminates_for_every_tracker (track : K → List (Sample K)) :
    (bisectIter (unstableTest track) 15 ((0 : K), 3 / 100)).2 -
        (bisectIter (unstableTest track) 15 ((0 : K), 3 / 100)).1 ≤ 1 / 1000000 ∧
      ¬ BisectDiverges (unstableTest track) :=
  ⟨bisect_width (unstableTest track), fun hd =>
    absurd (bisect_width (unstableTest track)) (not_le.mpr (hd 15))⟩

/- ----- claim C2: the stable-area value at the unit equilateral triangle ----- -/

/-- C2 counterexample: at the normalized fixed points `(0, 1)`,
`(-0.866, -0.5)`, `(0.866, -0.5)` (equilateral, circumradius 1) the claim says
the computed `stable_area` has magnitude `3√3/4 ≈ 1.299` up to floating
tolerance.  In fact the determinant evaluates to exactly `2.598`, which
exceeds `3√3/4` by more than 1, so the claim is false for any tolerance
below 1. -/
theorem stable_area_equilateral_not_triangle_area :
    3 * Real.sqrt 3 / 4 + 1 <
      |stableArea ((0 : ℝ), 1) (-(866 / 1000), -(1 / 2)) (866 / 1000, -(1 / 2))| := by
  have harea :
      stableArea ((0 : ℝ), 1) (-(866 / 1000), -(1 / 2)) (866 / 1000, -(1 / 2)) = 2598 / 1000 := by
    norm_num [stableArea, det3]
  rw [harea, abs_of_pos (by norm_num)]
  have h := Real.sq_sqrt (show (0 : ℝ) ≤ 3 by norm_num)
  nlinarith [h, Real.sqrt_nonneg 3]

/-- C2 amended: the determinant
`det [[x_norm of fp1..3], [px_norm of fp1..3], [1,1,1]]` is TWICE the signed
triangle area, so at the equilateral triangle of circumradius 1 the computed
`stable_area` has magnitude `2.598 = 2·(3√3/4) ≈ 3√3/2` (equal to `3√3/2`
within floating tolerance; exactly `2.598` at the rounded inputs). -/
theorem stable_area_equilateral_twice_triangle_area :
    stableArea ((0 : ℝ), 1) (-(866 / 1000), -(1 / 2)) (866 / 1000, -(1 / 2)) = 2598 / 1000 ∧
      |(2598 : ℝ) / 1000 - 2 * (3 * Real.sqrt 3 / 4)| < 1 / 1000 := by
  constructor
  · norm_num [stableArea, det3]
  · have h := Real.sq_sqrt (show (0 : ℝ) ≤ 3 by norm_num)
    have h2 := Real.sqrt_nonneg 3
    rw [abs_lt]
    constructor <;> nlinarith [h, h2]

/- ----- claim C5: no liveness filtering on the boundary curve ----- -/

/-- A sample whose state flag marks the particle as lost (`state = 0`,
not `> 0`). -/
def deadSample : Sample ℚ := ⟨1, 2, 3, 4, 0⟩

/-- C5 counterexample: the claim says lost samples are discarded from the
triangle trajectory before the angle computation and angular sort.  They are
not: a trajectory consisting of a single lost sample still yields that sample
as the (entire) sorted boundary polygon.  (The only `state > 0` filtering in
the source is `mask_alive` in the plotting branch, applied to the separatrix
trajectory.) -/
theorem boundary_sort_keeps_lost_sample :
    sortBoundary [deadSample] = [deadSample] ∧ ¬ (0 < deadSample.state) :=
  ⟨List.perm_singleton.mp (List.mergeSort_perm [deadSample] _), by decide⟩

/-- C5 amended: the boundary-curve construction applies NO liveness
filtering: the angularly sorted boundary is a permutation of ALL samples of
the triangle trajectory, lost or alive (liveness filtering, `state > 0`,
happens only in the plotting branch and only on the separatrix trajectory). -/
theorem boundary_sort_permutation (l : List (Sample K)) :
    List.Perm (sortBoundary l) l :=
  List.mergeSort_perm l _

/- ----- claim C6: empty rotation mask falls back to index 0 ----- -/

/-- C6: if no sample lies in the `0.2·r₁` disk around the `+120°`
(respectively `-120°`) rotation of the maximum-radius sample, the masked
radius array is identically zero and `np.argmax` of it is index 0 — the
fixed-point search silently selects sample index 0 instead of signaling
failure.  (Distances and radii are compared via their squares:
`0.2² = 1/25`.) -/
theorem fp_mask_miss_gives_index_zero (s : K) (zs : List (K × K)) :
    ((∀ z ∈ zs, ¬ (distSq z (rot120 s (z_fp1 zs)) < 1 / 25 * rsq (z_fp1 zs))) →
        fp2Idx s zs = 0) ∧
      ((∀ z ∈ zs, ¬ (distSq z (rot240 s (z_fp1 zs)) < 1 / 25 * rsq (z_fp1 zs))) →
        fp3Idx s zs = 0) := by
  constructor
  · intro h
    show argmax (zs.map (maskVal2 s zs)) = 0
    refine argmax_const (zs.map (maskVal2 s zs)) 0 ?_
    intro a ha
    obtain ⟨z, hz, rfl⟩ := List.mem_map.mp ha
    exact if_neg (h z hz)
  · intro h
    show argmax (zs.map (maskVal3 s zs)) = 0
    refine argmax_const (zs.map (maskVal3 s zs)) 0 ?_
    intro a ha
    obtain ⟨z, hz, rfl⟩ := List.mem_map.mp ha
    exact if_neg (h z hz)

theorem z_fp1_single : z_fp1 [((1 : ℚ), 0)] = (1, 0) := by
  have h0 : fp1Idx [((1 : ℚ), 0)] = 0 :=
    argmax_const ([((1 : ℚ), 0)].map rsq) (rsq ((1 : ℚ), 0)) (by simp)
  show [((1 : ℚ), 0)].getD (fp1Idx [((1 : ℚ), 0)]) (0, 0) = (1, 0)
  rw [h0]
  rfl

theorem fp_mask_miss_gives_index_zero_witness :
    fp2Idx ((26 : ℚ) / 15) [((1 : ℚ), 0)] = 0 ∧ fp3Idx ((26 : ℚ) / 15) [((1 : ℚ), 0)] = 0 :=
  ⟨(fp_mask_miss_gives_index_zero ((26 : ℚ) / 15) [((1 : ℚ), 0)]).1 (by
      intro z hz
      rw [List.mem_singleton.mp hz, z_fp1_single]
      simp only [distSq, rot120, rsq]
      norm_num),
   (fp_mask_miss_gives_index_zero ((26 : ℚ) / 15) [((1 : ℚ), 0)]).2 (by
      intro z hz
      rw [List.mem_singleton.mp hz, z_fp1_single]
      simp only [distSq, rot240, rsq]
      norm_num)⟩

/- ----- claim C7: edge behavior of the septum slope window ----- -/

/-- Evaluation rule for `argmin` on concrete lists: if position `i` holds a
minimal value `m` and no earlier position holds `m`, then `argmin` is `i`. -/
theorem argmin_spec (l : List K) (m : K) (i : ℕ) (hi : i < l.length)
    (him : l.getD i 0 = m) (hle : ∀ a ∈ l, m ≤ a)
    (hbefore : ∀ j, j < i → l.getD j 0 ≠ m) :
    argmin l = i := by
  have hmem : m ∈ l := by
    rw [← him, List.getD_eq_getElem l 0 hi]
    exact List.getElem_mem hi
  have hmin : l.minimum = (m : WithTop K) := List.minimum_eq_coe_iff.mpr ⟨hmem, hle⟩
  unfold argmin
  rw [List.findIdx_eq hi]
  have hgi : l[i] = m := by rw [← him, List.getD_eq_getElem l 0 hi]
  refine ⟨by simp [hmin, hgi], ?_⟩
  intro j hji
  have hj2 : j < l.length := by omega
  simp only [hmin, decide_eq_false_iff_not]
  intro hcon
  refine hbefore j hji ?_
  rw [List.getD_eq_getElem l 0 hj2]
  exact (WithTop.coe_eq_coe.mp hcon).symm

/-- A separatrix trajectory whose sample closest to the septum is its FIRST
sample (index 0, within 3 of the start). -/
def trajC7start : List (ℚ × ℚ) :=
  [(35 / 1000, 0), (1 / 100, 0), (2 / 100, 1), (3 / 100, 3), (1 / 1000, 5),
   (2 / 1000, 0), (3 / 1000, 0)]

/-- A separatrix trajectory whose sample closest to the septum is its LAST
sample (within 3 of the end). -/
def trajC7end : List (ℚ × ℚ) := [(0, 10), (1, 20), (35 / 1000, 30)]

theorem iSeptumIdx_trajC7start : iSeptumIdx trajC7start = 0 := by
  have hmap : trajC7start.map (fun z => |z.1 - x_septum|) =
      [0, 5 / 200, 3 / 200, 1 / 200, 34 / 1000, 33 / 1000, 32 / 1000] := by
    simp only [trajC7start, x_septum, List.map_cons, List.map_nil]
    norm_num [abs_of_nonneg, abs_of_nonpos]
  unfold iSeptumIdx
  rw [hmap]
  refine argmin_spec [0, 5 / 200, 3 / 200, 1 / 200, 34 / 1000, 33 / 1000, 32 / 1000] 0 0
    (by norm_num) rfl ?_ ?_
  · intro a ha
    simp only [List.mem_cons, List.not_mem_nil, or_false] at ha
    rcases ha with rfl | rfl | rfl | rfl | rfl | rfl | rfl <;> norm_num
  · intro j hj
    omega

theorem iSeptumIdx_trajC7end : iSeptumIdx trajC7end = 2 := by
  have hmap : trajC7end.map (fun z => |z.1 - x_septum|) = [7 / 200, 193 / 200, 0] := by
    simp only [trajC7end, x_septum, List.map_cons, List.map_nil]
    norm_num [abs_of_nonneg, abs_of_nonpos]
  unfold iSeptumIdx
  rw [hmap]
  refine argmin_spec [7 / 200, 193 / 200, 0] 0 2 (by norm_num) rfl ?_ ?_
  · intro a ha
    simp only [List.mem_cons, List.not_mem_nil, or_false] at ha
    rcases ha with rfl | rfl | rfl <;> norm_num
  · intro j hj
    interval_cases j
    · show (7 : ℚ) / 200 ≠ 0
      norm_num
    · show (193 : ℚ) / 200 ≠ 0
      norm_num

/-- C7 counterexample: the claim says that a closest-to-septum index within 3
of the trajectory's START raises an out-of-range error.  It does not: numpy
resolves the negative index `i_septum - 3` by wrapping to the array's tail, so
the slope fit silently succeeds (here with the window
`(x[4], px[4])…(x[3], px[3])`, `x[4]` being the third element from the end). -/
theorem slope_window_start_edge_wraps :
    iSeptumIdx trajC7start = 0 ∧
      slopeAtSeptum trajC7start = some (-(2000 / 29), 147 / 29) := by
  refine ⟨iSeptumIdx_trajC7start, ?_⟩
  have ha : npIndex trajC7start.length ((iSeptumIdx trajC7start : ℤ) - 3) = some 4 := by
    rw [iSeptumIdx_trajC7start, show trajC7start.length = 7 from rfl]
    decide
  have hb : npIndex trajC7start.length ((iSeptumIdx trajC7start : ℤ) + 3) = some 3 := by
    rw [iSeptumIdx_trajC7start, show trajC7start.length = 7 from rfl]
    decide
  have hg4 : trajC7start.getD 4 ((0 : ℚ), 0) = (1 / 1000, 5) := rfl
  have hg3 : trajC7start.getD 3 ((0 : ℚ), 0) = (3 / 100, 3) := rfl
  simp only [slopeAtSeptum, ha, hb, hg4, hg3, Option.some.injEq, Prod.mk.injEq]
  norm_num

/-- C7 amended: if the closest-to-septum index is within 3 of the trajectory's
END (`i + 3 ≥ n`), the access raises an out-of-range error (`none`); if it is
within 3 of the START (`i < 3`, with `i + 3` still in range), NO error is
raised — the negative index `i - 3` silently wraps to the array's tail and the
fit produces a value. -/
theorem slope_window_edge_behavior (traj : List (K × K)) :
    (traj.length ≤ iSeptumIdx traj + 3 → slopeAtSeptum traj = none) ∧
      (iSeptumIdx traj < 3 → iSeptumIdx traj + 3 < traj.length →
        (slopeAtSeptum traj).isSome = true) := by
  constructor
  · intro hle
    have hnone : npIndex traj.length ((iSeptumIdx traj : ℤ) + 3) = none := by
      unfold npIndex
      rw [if_pos (by omega), if_neg (by omega)]
    simp only [slopeAtSeptum, hnone]
    cases npIndex traj.length ((iSeptumIdx traj : ℤ) - 3) <;> rfl
  · intro h1 h2
    have ha : npIndex traj.length ((iSeptumIdx traj : ℤ) - 3) =
        some ((iSeptumIdx traj : ℤ) - 3 + (traj.length : ℤ)).toNat := by
      unfold npIndex
      rw [if_neg (by omega), if_pos (by omega)]
    have hb : npIndex traj.length ((iSeptumIdx traj : ℤ) + 3) =
        some ((iSeptumIdx traj : ℤ) + 3).toNat := by
      unfold npIndex
      rw [if_pos (by omega), if_pos (by omega)]
    simp only [slopeAtSeptum, ha, hb]
    rfl

theorem slope_window_edge_behavior_witness :
    slopeAtSeptum trajC7end = none ∧ (slopeAtSeptum trajC7start).isSome = true :=
  ⟨(slope_window_edge_behavior trajC7end).1
      (by rw [iSeptumIdx_trajC7end, show trajC7end.length = 3 from rfl]; omega),
   (slope_window_edge_behavior trajC7start).2
      (by rw [iSeptumIdx_trajC7start]; norm_num)
      (by rw [iSeptumIdx_trajC7start, show trajC7start.length = 7 from rfl]; norm_num)⟩

/- ----- claim C3: detection on an exactly 120°-symmetric trajectory ----- -/

/-- C3: For every triangle trajectory that in normalized coordinates consists
of exactly three clusters at positive radius, exactly symmetric under 120°
rotation about the origin (each sample coincides with one of
`p1, rot120 p1, rot240 p1`, all three occurring — the spec's configuration is
`p1 = (0, r)`, putting the clusters at angles 90°, 210°, 330°), fixed-point
detection returns exactly those three cluster points, in some order, each one
EXACTLY (stronger than "within numerical tolerance"). -/
theorem fixed_point_detection_rotation_symmetric (s : K) (p1 : K × K) (zs : List (K × K))
    (hs : s ^ 2 = 3) (hr : 0 < rsq p1)
    (hmem : ∀ z ∈ zs, z = p1 ∨ z = rot120 s p1 ∨ z = rot240 s p1)
    (h1 : p1 ∈ zs) (h2 : rot120 s p1 ∈ zs) (h3 : rot240 s p1 ∈ zs) :
    List.Perm (normFixedPoints s zs) [p1, rot120 s p1, rot240 s p1] := by
  have hne : zs ≠ [] := List.ne_nil_of_mem h1
  have hall : ∀ z ∈ zs, rsq z = rsq p1 := by
    intro z hz
    rcases hmem z hz with rfl | rfl | rfl
    · rfl
    · exact rsq_rot120 s p1 hs
    · exact rsq_rot240 s p1 hs
  have hidx1 : fp1Idx zs = 0 := by
    show argmax (zs.map rsq) = 0
    refine argmax_const (zs.map rsq) (rsq p1) ?_
    intro v hv
    obtain ⟨z, hz, rfl⟩ := List.mem_map.mp hv
    exact hall z hz
  obtain ⟨a, t, rfl⟩ : ∃ a t, zs = a :: t := by
    cases zs with
    | nil => exact absurd rfl hne
    | cons a t => exact ⟨a, t, rfl⟩
  have hamem : a ∈ a :: t := List.mem_cons_self a t
  have hz1 : z_fp1 (a :: t) = a := by
    show (a :: t).getD (fp1Idx (a :: t)) (0, 0) = a
    rw [hidx1]
    rfl
  have hrsqa : rsq a = rsq p1 := hall a hamem
  have ha : a = p1 ∨ a = rot120 s p1 ∨ a = rot240 s p1 := hmem a hamem
  have hrot1mem : rot120 s a ∈ a :: t := by
    rcases ha with rfl | rfl | rfl
    · exact h2
    · rw [rot120_rot120 s p1 hs]; exact h3
    · rw [rot120_rot240 s p1 hs]; exact h1
  have hrot2mem : rot240 s a ∈ a :: t := by
    rcases ha with rfl | rfl | rfl
    · exact h3
    · rw [rot240_rot120 s p1 hs]; exact h1
    · rw [rot240_rot240 s p1 hs]; exact h2
  have hrot1set := hmem (rot120 s a) hrot1mem
  have hrot2set := hmem (rot240 s a) hrot2mem
  have hfp2 : (a :: t).getD (fp2Idx s (a :: t)) (0, 0) = rot120 s a := by
    show (a :: t).getD (argmax ((a :: t).map (maskVal2 s (a :: t)))) (0, 0) = rot120 s a
    refine argmax_masked_select (a :: t) (maskVal2 s (a :: t)) (rot120 s a) (rsq p1) hr
      ?_ hrot1mem
    intro z hz
    unfold maskVal2
    rw [hz1]
    by_cases hzt : z = rot120 s a
    · subst hzt
      have hcond : distSq (rot120 s a) (rot120 s a) < 1 / 25 * rsq a := by
        rw [distSq_self, hrsqa]
        linarith
      rw [if_pos hcond, if_pos rfl]
      exact hall _ hrot1mem
    · have hcond : ¬ (distSq z (rot120 s a) < 1 / 25 * rsq a) := by
        rw [cluster_distSq s p1 z (rot120 s a) hs (hmem z hz) hrot1set hzt, hrsqa]
        intro hcon
        nlinarith [hr]
      rw [if_neg hcond, if_neg hzt]
  have hfp3 : (a :: t).getD (fp3Idx s (a :: t)) (0, 0) = rot240 s a := by
    show (a :: t).getD (argmax ((a :: t).map (maskVal3 s (a :: t)))) (0, 0) = rot240 s a
    refine argmax_masked_select (a :: t) (maskVal3 s (a :: t)) (rot240 s a) (rsq p1) hr
      ?_ hrot2mem
    intro z hz
    unfold maskVal3
    rw [hz1]
    by_cases hzt : z = rot240 s a
    · subst hzt
      have hcond : distSq (rot240 s a) (rot240 s a) < 1 / 25 * rsq a := by
        rw [distSq_self, hrsqa]
        linarith
      rw [if_pos hcond, if_pos rfl]
      exact hall _ hrot2mem
    · have hcond : ¬ (distSq z (rot240 s a) < 1 / 25 * rsq a) := by
        rw [cluster_distSq s p1 z (rot240 s a) hs (hmem z hz) hrot2set hzt, hrsqa]
        intro hcon
        nlinarith [hr]
      rw [if_neg hcond, if_neg hzt]
  have hlist : normFixedPoints s (a :: t) = [a, rot120 s a, rot240 s a] := by
    unfold normFixedPoints
    rw [hfp2, hfp3, show (a :: t).getD (fp1Idx (a :: t)) (0, 0) = a from hz1]
  rw [hlist]
  rcases ha with rfl | rfl | rfl
  · exact List.Perm.refl _
  · rw [rot120_rot120 s p1 hs, rot240_rot120 s p1 hs]
    exact @List.perm_append_comm (K × K) [rot120 s p1, rot240 s p1] [p1]
  · rw [rot120_rot240 s p1 hs, rot240_rot240 s p1 hs]
    exact @List.perm_append_comm (K × K) [rot240 s p1] [p1, rot120 s p1]

theorem fixed_point_detection_rotation_symmetric_witness :
    List.Perm
      (normFixedPoints (Real.sqrt 3)
        [((0 : ℝ), 1), rot120 (Real.sqrt 3) ((0 : ℝ), 1), rot240 (Real.sqrt 3) ((0 : ℝ), 1)])
      [((0 : ℝ), 1), rot120 (Real.sqrt 3) ((0 : ℝ), 1), rot240 (Real.sqrt 3) ((0 : ℝ), 1)] :=
  fixed_point_detection_rotation_symmetric (Real.sqrt 3) ((0 : ℝ), 1)
    [((0 : ℝ), 1), rot120 (Real.sqrt 3) ((0 : ℝ), 1), rot240 (Real.sqrt 3) ((0 : ℝ), 1)]
    (Real.sq_sqrt (by norm_num))
    (by norm_num [rsq])
    (by
      intro z hz
      simp only [List.mem_cons, List.not_mem_nil, or_false] at hz
      exact hz)
    (by simp) (by simp) (by simp)

/- ----- claim C8: the returned FixedPointSet invariant ----- -/

/-- Necessary condition of the C8 invariant: three points that, sorted by
normalized-plane angle, have consecutive angular separations of approximately
120° are in particular pairwise distinct (coincident points have angular
separation 0°, not ≈120°, under every reading of "approximately"). -/
def FpPairwiseDistinct (l : List (K × K)) : Prop := l.Pairwise (fun a b => a ≠ b)

/-- C8 counterexample: the claimed invariant is NOT guaranteed "for every
terminating characterization call".  On the one-sample trajectory `[(1, 0)]`
(with the genuine rotation constant `s = √3`) both rotation masks are empty,
the fallback picks index 0 three times, and the detection returns the same
point thrice — the three returned fixed points are not pairwise distinct, so
they are not separated by ≈120° in angle (nor is any of them a UNIQUE
maximum-radius point among the three). -/
theorem fp_invariant_fails_in_general :
    normFixedPoints (Real.sqrt 3) [((1 : ℝ), 0)] =
        [((1 : ℝ), 0), ((1 : ℝ), 0), ((1 : ℝ), 0)] ∧
      ¬ FpPairwiseDistinct (normFixedPoints (Real.sqrt 3) [((1 : ℝ), 0)]) := by
  have hs := Real.sq_sqrt (show (0 : ℝ) ≤ 3 by norm_num)
  have h0 : fp1Idx [((1 : ℝ), 0)] = 0 := by
    show argmax ([((1 : ℝ), 0)].map rsq) = 0
    exact argmax_const _ (rsq ((1 : ℝ), 0)) (by simp)
  have hz1 : z_fp1 [((1 : ℝ), 0)] = (1, 0) := by
    show [((1 : ℝ), 0)].getD (fp1Idx [((1 : ℝ), 0)]) (0, 0) = (1, 0)
    rw [h0]
    rfl
  have hrot2 : rot120 (Real.sqrt 3) ((1 : ℝ), 0) = (-(1 / 2), Real.sqrt 3 / 2) := by
    rw [Prod.ext_iff]
    constructor <;> simp [rot120] <;> ring
  have hrot3 : rot240 (Real.sqrt 3) ((1 : ℝ), 0) = (-(1 / 2), -(Real.sqrt 3 / 2)) := by
    rw [Prod.ext_iff]
    constructor <;> simp [rot240] <;> ring
  have hd2 : distSq ((1 : ℝ), 0) (rot120 (Real.sqrt 3) ((1 : ℝ), 0)) = 3 := by
    rw [hrot2]
    show ((1 : ℝ) - -(1 / 2)) ^ 2 + (0 - Real.sqrt 3 / 2) ^ 2 = 3
    linear_combination (1 / 4) * hs
  have hd3 : distSq ((1 : ℝ), 0) (rot240 (Real.sqrt 3) ((1 : ℝ), 0)) = 3 := by
    rw [hrot3]
    show ((1 : ℝ) - -(1 / 2)) ^ 2 + (0 - -(Real.sqrt 3 / 2)) ^ 2 = 3
    linear_combination (1 / 4) * hs
  have hm2 : maskVal2 (Real.sqrt 3) [((1 : ℝ), 0)] ((1 : ℝ), 0) = 0 := by
    unfold maskVal2
    rw [hz1, hd2]
    rw [if_neg (by norm_num [rsq])]
  have hm3 : maskVal3 (Real.sqrt 3) [((1 : ℝ), 0)] ((1 : ℝ), 0) = 0 := by
    unfold maskVal3
    rw [hz1, hd3]
    rw [if_neg (by norm_num [rsq])]
  have hi2 : fp2Idx (Real.sqrt 3) [((1 : ℝ), 0)] = 0 := by
    show argmax ([((1 : ℝ), 0)].map (maskVal2 (Real.sqrt 3) [((1 : ℝ), 0)])) = 0
    refine argmax_const _ 0 ?_
    intro v hv
    simp only [List.map_cons, List.map_nil, List.mem_cons, List.not_mem_nil, or_false] at hv
    rw [hv, hm2]
  have hi3 : fp3Idx (Real.sqrt 3) [((1 : ℝ), 0)] = 0 := by
    show argmax ([((1 : ℝ), 0)].map (maskVal3 (Real.sqrt 3) [((1 : ℝ), 0)])) = 0
    refine argmax_const _ 0 ?_
    intro v hv
    simp only [List.map_cons, List.map_nil, List.mem_cons, List.not_mem_nil, or_false] at hv
    rw [hv, hm3]
  have hlist : normFixedPoints (Real.sqrt 3) [((1 : ℝ), 0)] =
      [((1 : ℝ), 0), ((1 : ℝ), 0), ((1 : ℝ), 0)] := by
    unfold normFixedPoints
    rw [h0, hi2, hi3]
    rfl
  refine ⟨hlist, ?_⟩
  rw [hlist]
  simp [FpPairwiseDistinct]

/-- C8 amended: what DOES hold for every trajectory is (a) the first returned
fixed point attains the maximum normalized radius over the trajectory samples
(it is the first such sample, not necessarily a unique one), and (b) the
physical/normalized index correspondence: each returned physical fixed point
is the physical coordinate of the same unsorted triangle-trajectory sample
whose normalized coordinate is returned at the same position.  The 120°
angular separation and the uniqueness of the maximum-radius point hold only
for symmetric trajectories (see the C3 theorem), not in general. -/
theorem fixed_points_index_correspondence (s : K) (zp zn : List (K × K)) (hne : zn ≠ []) :
    (∀ z ∈ zn, rsq z ≤ rsq (zn.getD (fp1Idx zn) (0, 0))) ∧
      (∀ k, k < 3 → ∃ i, i < zn.length ∧
        (physFixedPoints s zp zn).getD k (0, 0) = zp.getD i (0, 0) ∧
        (normFixedPoints s zn).getD k (0, 0) = zn.getD i (0, 0)) := by
  have hmapne : zn.map rsq ≠ [] := by simpa using hne
  have hlen1 : fp1Idx zn < zn.length := by
    have := argmax_lt_length (zn.map rsq) hmapne
    simpa using this
  constructor
  · intro z hz
    have hle := le_getD_argmax (zn.map rsq) hmapne (rsq z) (List.mem_map_of_mem rsq hz)
    have hfp : fp1Idx zn = argmax (zn.map rsq) := rfl
    rw [← hfp] at hle
    have hgd : (zn.map rsq).getD (fp1Idx zn) 0 = rsq (zn.getD (fp1Idx zn) (0, 0)) := by
      rw [List.getD_eq_getElem (zn.map rsq) 0 (by simpa using hlen1),
        List.getD_eq_getElem zn (0, 0) hlen1]
      simp
    rw [hgd] at hle
    exact hle
  · intro k hk
    have hlen2 : fp2Idx s zn < zn.length := by
      have hne2 : zn.map (maskVal2 s zn) ≠ [] := by simpa using hne
      have := argmax_lt_length (zn.map (maskVal2 s zn)) hne2
      simpa using this
    have hlen3 : fp3Idx s zn < zn.length := by
      have hne3 : zn.map (maskVal3 s zn) ≠ [] := by simpa using hne
      have := argmax_lt_length (zn.map (maskVal3 s zn)) hne3
      simpa using this
    interval_cases k
    · exact ⟨fp1Idx zn, hlen1, rfl, rfl⟩
    · exact ⟨fp2Idx s zn, hlen2, rfl, rfl⟩
    · exact ⟨fp3Idx s zn, hlen3, rfl, rfl⟩

theorem fixed_points_index_correspondence_witness :
    (∀ z ∈ [((2 : ℚ), 0)], rsq z ≤ rsq ([((2 : ℚ), 0)].getD (fp1Idx [((2 : ℚ), 0)]) (0, 0))) ∧
      (∀ k, k < 3 → ∃ i, i < ([((2 : ℚ), 0)] : List (ℚ × ℚ)).length ∧
        (physFixedPoints ((26 : ℚ) / 15) [((5 : ℚ), 6)] [((2 : ℚ), 0)]).getD k (0, 0) =
          [((5 : ℚ), 6)].getD i (0, 0) ∧
        (normFixedPoints ((26 : ℚ) / 15) [((2 : ℚ), 0)]).getD k (0, 0) =
          [((2 : ℚ), 0)].getD i (0, 0)) :=
  fixed_points_index_correspondence ((26 : ℚ) / 15) [((5 : ℚ), 6)] [((2 : ℚ), 0)] (by simp)

/- ----- claim C10: the plot flag does not alter the returned record ----- -/

/-- C10: for every line (abstract tracker) the `CharacterizationResult`
returned by `characterize_phase_space` is identical whether the plot flag is
true or false: the plotting branch only READS the computed data to assemble
the figure and never alters `stable_area`, `dpx_dx_at_septum`, or the four
fixed-point arrays. -/
theorem plot_flag_preserves_result (s : K) (track : K → List (Sample K)) (plot : Bool) :
    Option.map Prod.fst (characterize_phase_space s track plot) =
      Option.map Prod.fst (characterize_phase_space s track false) := by
  simp only [characterize_phase_space]
  cases slopeAtSeptum ((track (bisect (unstableTest track)).2).map (fun a => (a.x, a.px))) <;>
    rfl

end PhaseSpace
